import Mathlib

/-!
Verification development for the nengo-dl example notebooks.

The repository consists of three example notebooks: `spa-retrieval.ipynb`
(a cognitive-model optimization example defining the Python functions
`get_data` and `accuracy`), a "Coming from TensorFlow to NengoDL"
tutorial, and a Keras-integration tutorial.  This file embeds the
repository-defined computations (`get_data`, `accuracy`), the simulator
usage traces and the serialization call sites of the notebooks, and a
model of the NEF least-squares solver described by the spec, and proves
the frozen claims about them.
-/

namespace NengoDL

open Matrix

/-! ## Vectors

Semantic pointers are `vec_d`-dimensional vectors.  The notebooks use
floating-point numpy arrays; we embed the arithmetic over `ℚ`. -/

/-- A `d`-dimensional vector (one semantic pointer, or one row of a
probe-data array). -/
abbrev Vec (d : Nat) := Fin d → ℚ

/-- The all-zeros vector, `np.zeros(d)`. -/
def zeroVec (d : Nat) : Vec d := fun _ => 0

/-- Dot product of two vectors, `np.dot`. -/
def dotP {d : Nat} (x y : Vec d) : ℚ := ∑ i, x i * y i

/-- Circular convolution, the binding operation `∗` on semantic pointers:
`(x ⊛ y) i = ∑ j, x j * y (i - j)` with the index difference taken
modulo `d` (the `Fin d` subtraction). -/
def cconv {d : Nat} (x y : Vec d) : Vec d := fun i => ∑ j, x j * y (i - j)

/-! ## The external library interface used by `get_data`

`get_data` calls into the external nengo `spa.Vocabulary` and numpy
`RandomState` objects.  We model the primitives it consumes as an
abstract structure: `gen seed pos` is the semantic pointer produced by
the `pos`-th draw from the generator seeded with `seed`
(`Vocabulary.create_pointer`, reached through `vocab.parse` when it
meets an unknown name); `normalize` is `SemanticPointer.normalize()`;
`randint seed pos b` is the value of `rng.randint(b)` when the generator
is at draw position `pos`.  Each draw advances the position by one, so
every random choice comes from the single seeded stream.  `randint_lt`
records the documented contract `rng.randint(b) < b`. -/
structure SpaLib (d : Nat) where
  gen : Nat → Nat → Vec d
  normalize : Vec d → Vec d
  randint : Nat → Nat → Nat → Nat
  randint_lt : ∀ s pos b, 0 < b → randint s pos b < b

/-- Vocabulary keys.  `get_data` names its pointers with the f-strings
`ROLE_{n}_{i}`, `FILLER_{n}_{i}` and `TRACE_{n}`; these strings are
distinct for distinct arguments, which we model with an inductive
type. -/
inductive Key where
  | role (n i : Nat)
  | filler (n i : Nat)
  | trace (n : Nat)
deriving DecidableEq

/-- The item number `n` carried by a key. -/
def Key.item : Key → Nat
  | .role n _ => n
  | .filler n _ => n
  | .trace n => n

/-- A vocabulary: the ordered list of (name, pointer) pairs, in insertion
order (`vocab.vectors` is the corresponding list of vectors). -/
abbrev Vocab (d : Nat) := List (Key × Vec d)

/-- Look a key up in a vocabulary (first match). -/
def vFind {d : Nat} : Vocab d → Key → Option (Vec d)
  | [], _ => none
  | (k, v) :: rest, q => if q = k then some v else vFind rest q

/-! ## The parse expression

`get_data` builds the string `"+".join(f"{x} * {y}" for x, y in
zip(role_names, filler_names))` and hands it to `vocab.parse`.  We model
the parsed expression as an AST: a `+`-join of `ROLE_{n}_{i} *
FILLER_{n}_{i}` products, left-associated as Python evaluates it. -/
inductive Expr where
  | atom (k : Key)
  | mul (a b : Expr)
  | add (a b : Expr)

/-- The `i`-th product term `ROLE_{n}_{i} * FILLER_{n}_{i}`. -/
def pairTerm (n i : Nat) : Expr := Expr.mul (Expr.atom (Key.role n i)) (Expr.atom (Key.filler n i))

/-- Left-associated `+`-join of a nonempty term list, as Python
evaluates `t0 + t1 + ... + tk`. -/
def joinAdd (t : Expr) (ts : List Expr) : Expr := ts.foldl Expr.add t

/-- The expression `vocab.parse` receives for item `n`:
`ROLE_n_0 * FILLER_n_0 + ... + ROLE_n_{p-1} * FILLER_n_{p-1}`.
Joining an empty sequence gives the empty string, which `parse`
rejects; that is the `none` case. -/
def buildExpr (n pairs : Nat) : Option Expr :=
  match (List.range pairs).map (pairTerm n) with
  | [] => none
  | t :: ts => some (joinAdd t ts)

/-- Evaluate a parse expression, mirroring `Vocabulary.parse`: a known
name evaluates to its stored pointer; an unknown name triggers
`create_pointer` (one draw from the generator, advancing the position)
and is appended to the vocabulary; `*` is circular convolution and `+`
is vector addition, evaluated left to right. -/
def evalExpr {d : Nat} (lib : SpaLib d) (seed : Nat) :
    Expr → Vocab d → Nat → Vec d × Vocab d × Nat
  | .atom k, vocab, pos =>
    match vFind vocab k with
    | some v => (v, vocab, pos)
    | none => (lib.gen seed pos, vocab ++ [(k, lib.gen seed pos)], pos + 1)
  | .mul a b, vocab, pos =>
    let ra := evalExpr lib seed a vocab pos
    let rb := evalExpr lib seed b ra.2.1 ra.2.2
    (cconv ra.1 rb.1, rb.2.1, rb.2.2)
  | .add a b, vocab, pos =>
    let ra := evalExpr lib seed a vocab pos
    let rb := evalExpr lib seed b ra.2.1 ra.2.2
    (ra.1 + rb.1, rb.2.1, rb.2.2)

/-- `vocab[key]`: `Vocabulary.__getitem__` returns the stored pointer,
creating a fresh one when the key is unknown — the same behaviour as an
atom inside `parse`. -/
def vGet {d : Nat} (lib : SpaLib d) (seed : Nat) (k : Key) (vocab : Vocab d) (pos : Nat) :
    Vec d × Vocab d × Nat :=
  evalExpr lib seed (Expr.atom k) vocab pos

/-! ## `get_data`

The loop state carries the growing vocabulary, the generator draw
position, and the three output arrays.  Each output array has shape
`(n_items, 1, vec_d)`: a list of rows, each row a singleton list (the
time axis of length 1), each entry a `Vec d`. -/
structure St (d : Nat) where
  vocab : Vocab d
  pos : Nat
  traces : List (List (Vec d))
  cues : List (List (Vec d))
  targets : List (List (Vec d))
deriving DecidableEq

/-- The initial state: empty vocabulary, generator at position 0, the
row lists of the `np.zeros((n_items, 1, vec_d))` arrays still to be
filled. -/
def st0 (d : Nat) : St d := ⟨[], 0, [], [], []⟩

/-- One iteration of the `for n in range(n_items)` loop of `get_data`:
parse the joined role-filler expression (failing for an empty join),
normalize the resulting trace pointer, add it to the vocabulary under
`TRACE_{n}`, draw `cue_idx = rng.randint(pairs_per_item)`, and fill row
`n` of the three arrays with the trace and the looked-up
`ROLE_{n}_{cue_idx}` / `FILLER_{n}_{cue_idx}` pointers. -/
def itemStep {d : Nat} (lib : SpaLib d) (seed pairs : Nat) (st : St d) (n : Nat) :
    Option (St d) :=
  match buildExpr n pairs with
  | none => none
  | some e =>
    let r := evalExpr lib seed e st.vocab st.pos
    let traceV := lib.normalize r.1
    let vocab2 := r.2.1 ++ [(Key.trace n, traceV)]
    let cueIdx := lib.randint seed r.2.2 pairs
    let pos2 := r.2.2 + 1
    let rc := vGet lib seed (Key.role n cueIdx) vocab2 pos2
    let rt := vGet lib seed (Key.filler n cueIdx) rc.2.1 rc.2.2
    some { vocab := rt.2.1
           pos := rt.2.2
           traces := st.traces ++ [[traceV]]
           cues := st.cues ++ [[rc.1]]
           targets := st.targets ++ [[rt.1]] }

/-- Run the loop over a list of item indices. -/
def runItems {d : Nat} (lib : SpaLib d) (seed pairs : Nat) : List Nat → St d → Option (St d)
  | [], st => some st
  | n :: ns, st =>
    match itemStep lib seed pairs st n with
    | none => none
    | some st' => runItems lib seed pairs ns st'

/-- The embedding of `get_data(n_items, pairs_per_item, vec_d,
vocab_seed)`: `vec_d` is the type index `d`, the external primitives
are `lib`, and `rng = np.random.RandomState(vocab_seed)` is the seeded
stream.  Returns `none` exactly when an iteration fails (the `parse` of
an empty join, i.e. `pairs_per_item = 0` with at least one item). -/
def getData {d : Nat} (lib : SpaLib d) (nItems pairs seed : Nat) : Option (St d) :=
  runItems lib seed pairs (List.range nItems) (st0 d)

/-! ## Closed forms for `get_data`

Draw positions: item `n` consumes `2 * pairs` pointer draws followed by
one `randint` draw, so its first draw is at position `(2 * pairs + 1) * n`. -/

/-- The pointer created for `ROLE_{n}_{i}`. -/
def roleVec {d : Nat} (lib : SpaLib d) (seed pairs n i : Nat) : Vec d :=
  lib.gen seed ((2 * pairs + 1) * n + 2 * i)

/-- The pointer created for `FILLER_{n}_{i}`. -/
def fillerVec {d : Nat} (lib : SpaLib d) (seed pairs n i : Nat) : Vec d :=
  lib.gen seed ((2 * pairs + 1) * n + 2 * i + 1)

/-- The cued pair index for item `n`: the `rng.randint(pairs_per_item)`
draw after the item's `2 * pairs` pointer draws. -/
def cuedIdx {d : Nat} (lib : SpaLib d) (seed pairs n : Nat) : Nat :=
  lib.randint seed ((2 * pairs + 1) * n + 2 * pairs) pairs

/-- The normalized trace pointer of item `n`:
`TRACE_n = normalize (∑ j, ROLE_n_j ⊛ FILLER_n_j)`. -/
def traceVec {d : Nat} (lib : SpaLib d) (seed pairs n : Nat) : Vec d :=
  lib.normalize (∑ j ∈ Finset.range pairs,
    cconv (roleVec lib seed pairs n j) (fillerVec lib seed pairs n j))

/-- The vocabulary entries created while parsing a `p`-pair expression
for item `n` starting at draw position `base`: role and filler pointers
in creation order. -/
def pairEntries {d : Nat} (lib : SpaLib d) (seed base n p : Nat) : Vocab d :=
  ((List.range p).map (fun i =>
    [(Key.role n i, lib.gen seed (base + 2 * i)),
     (Key.filler n i, lib.gen seed (base + 2 * i + 1))])).flatten

/-- All vocabulary entries of item `n`: its role-filler pointers
followed by its trace pointer. -/
def itemVocab {d : Nat} (lib : SpaLib d) (seed pairs n : Nat) : Vocab d :=
  pairEntries lib seed ((2 * pairs + 1) * n) n pairs ++
    [(Key.trace n, traceVec lib seed pairs n)]

/-- The vocabulary after the first `m` items. -/
def vocabUpTo {d : Nat} (lib : SpaLib d) (seed pairs m : Nat) : Vocab d :=
  ((List.range m).map (itemVocab lib seed pairs)).flatten

/-- The loop state after the first `m` items. -/
def closedSt {d : Nat} (lib : SpaLib d) (seed pairs m : Nat) : St d :=
  { vocab := vocabUpTo lib seed pairs m
    pos := (2 * pairs + 1) * m
    traces := (List.range m).map (fun n => [traceVec lib seed pairs n])
    cues := (List.range m).map (fun n =>
      [roleVec lib seed pairs n (cuedIdx lib seed pairs n)])
    targets := (List.range m).map (fun n =>
      [fillerVec lib seed pairs n (cuedIdx lib seed pairs n)]) }

/-- A concrete instantiation of the external primitives, used to
evaluate the theorems at concrete inputs. -/
def libQ (d : Nat) : SpaLib d where
  gen := fun s pos i => (s : ℚ) + pos + i.val
  normalize := id
  randint := fun s pos b => (s + pos) % b
  randint_lt := fun _ _ _ hb => Nat.mod_lt _ hb

/-! ## The `accuracy` function

`accuracy(output, vocab, targets, t_step=-1)` from `spa-retrieval.ipynb`.
Arrays are embedded as nested lists: `output` and `targets` have shape
`(batch, steps, d)`, `vocab.vectors` is the list of vocabulary vectors.
Failures raised by the numpy calls inside `accuracy` (an out-of-range
index, the argmax of an empty axis, a failed broadcast) and the `nan`
produced by the mean of an empty array are all embedded as `none`. -/

/-- Apply a fallible elementwise operation across a batch axis: `none`
as soon as any element fails (the raise propagates). -/
def mapOpt {α β : Type} (f : α → Option β) : List α → Option (List β)
  | [] => some []
  | a :: l =>
    match f a with
    | none => none
    | some b =>
      match mapOpt f l with
      | none => none
      | some bs => some (b :: bs)

/-- Python sequence indexing `row[t]` with negative-index wrap-around:
`row[t] = row[len(row) + t]` for `t < 0`, out of range gives `none`
(an `IndexError`). -/
def pyGet {α : Type} (row : List α) (t : Int) : Option α :=
  let i : Int := if t < 0 then t + row.length else t
  if 0 ≤ i then row[i.toNat]? else none

/-- The maximum of a list of rationals (`0` for the empty list, which
`np.argmax` never consults because it raises there). -/
def listMax : List ℚ → ℚ
  | [] => 0
  | x :: xs => xs.foldl max x

/-- `np.argmax`: the first index attaining the maximum. -/
def argmaxIdx (l : List ℚ) : Nat := l.indexOf (listMax l)

/-- Numpy broadcasting of two batch axes: equal lengths pair up
elementwise, a length-1 axis is stretched, anything else is a
`ValueError`. -/
def broadcastRows {α β : Type} (xs : List α) (ys : List β) : Option (List (α × β)) :=
  if xs.length = ys.length then some (xs.zip ys)
  else
    match xs, ys with
    | [x], _ => some (ys.map fun y => (x, y))
    | _, [y] => some (xs.map fun x => (x, y))
    | _, _ => none

/-- `np.mean` of a list: the arithmetic mean, or `none` (numpy's `nan`)
for the empty list. -/
def npMean (l : List ℚ) : Option ℚ :=
  match l with
  | [] => none
  | _ => some (l.sum / (l.length : ℚ))

/-- The embedding of `accuracy(output, vocab, targets, t_step)`:
take `output[:, t_step, :]`; form the similarity matrix
`np.dot(vocab.vectors, output.T)`; take `np.argmax` along the
vocabulary axis (raising on an empty vocabulary); gather
`vocab.vectors[idxs]`; compare componentwise against `targets[:, 0]`
(with numpy broadcasting of the batch axes); return the mean of the
resulting indicator values. -/
def accuracyFn {d : Nat} (output : List (List (Vec d))) (vocabVecs : List (Vec d))
    (targets : List (List (Vec d))) (t_step : Int) : Option ℚ :=
  match mapOpt (fun row => pyGet row t_step) output with
  | none => none
  | some outs =>
    if vocabVecs.isEmpty then none
    else
      let idxs := outs.map (fun o => argmaxIdx (vocabVecs.map (fun v => dotP v o)))
      let chosen := idxs.map (fun i => vocabVecs.getD i (zeroVec d))
      match mapOpt (fun r => r[0]?) targets with
      | none => none
      | some tgt0 =>
        match broadcastRows chosen tgt0 with
        | none => none
        | some pairsL =>
          npMean (pairsL.map (fun p => if p.1 = p.2 then (1 : ℚ) else 0))

/-- The claim's description of the retrieved vector: the vocabulary
vector with the greatest dot-product similarity to `o` (the first such
vector, as `np.argmax` resolves ties). -/
def bestMatch {d : Nat} (vocabVecs : List (Vec d)) (o : Vec d) : Vec d :=
  vocabVecs.getD (argmaxIdx (vocabVecs.map (fun v => dotP v o))) (zeroVec d)

/-! ## Simulator usage traces

Each notebook's sequence of simulator lifecycle events, transcribed
from the source.  The operation set is the one the claim enumerates:
`step`, `run_steps`, `run`, `predict`, `compile`, `fit`, `evaluate`
(probe-data and `trange` reads are not in this set).  Simulators are
numbered in order of creation within each notebook. -/

/-- The simulator operations named by the claim. -/
inductive SimOp where
  | step
  | runSteps
  | run
  | predict
  | compileOp
  | fit
  | evaluate
deriving DecidableEq

/-- A simulator lifecycle event: creation (`nengo_dl.Simulator(...)` or
entry of its `with` block), an operation call, or close (`sim.close()`
or exit of the `with` block). -/
inductive Ev where
  | create (i : Nat)
  | op (i : Nat) (o : SimOp)
  | close (i : Nat)
deriving DecidableEq

/-- Check a trace: an operation or a close may only target a currently
open simulator, a simulator is created at most once. -/
def checkEvents : List Ev → List Nat → List Nat → Bool
  | [], _, _ => true
  | Ev.create i :: rest, opened, closed =>
    !(opened.contains i) && !(closed.contains i) && checkEvents rest (i :: opened) closed
  | Ev.op i _ :: rest, opened, closed =>
    opened.contains i && checkEvents rest opened closed
  | Ev.close i :: rest, opened, closed =>
    opened.contains i && checkEvents rest (opened.erase i) (i :: closed)

/-- A trace is well-scoped when every operation and close targets an
open simulator. -/
def wellScoped (evs : List Ev) : Bool := checkEvents evs [] []

/-- The simulator events of `spa-retrieval.ipynb`, parameterized by the
notebook's `do_training` flag.  Simulator 0 is the `with`-block
simulator used for the baseline test step; simulator 1 is created
without a `with` block, trained (or loaded from downloaded parameters),
stepped, and explicitly closed. -/
def spaRetrievalTrace (doTraining : Bool) : List Ev :=
  [Ev.create 0, Ev.op 0 .step, Ev.close 0, Ev.create 1] ++
  (if doTraining then [Ev.op 1 .compileOp, Ev.op 1 .fit] else []) ++
  [Ev.op 1 .step, Ev.close 1]

/-- The simulator events of the "Coming from TensorFlow to NengoDL"
notebook: six `with`-block simulators (predict; run_steps; predict;
compile/fit/evaluate/predict; run_steps; run_steps on the reference
`nengo.Simulator`). -/
def fromTfTrace : List Ev :=
  [Ev.create 0, Ev.op 0 .predict, Ev.close 0,
   Ev.create 1, Ev.op 1 .runSteps, Ev.close 1,
   Ev.create 2, Ev.op 2 .predict, Ev.close 2,
   Ev.create 3, Ev.op 3 .compileOp, Ev.op 3 .fit, Ev.op 3 .evaluate, Ev.op 3 .predict,
   Ev.close 3,
   Ev.create 4, Ev.op 4 .runSteps, Ev.close 4,
   Ev.create 5, Ev.op 5 .runSteps, Ev.close 5]

/-- The simulator events of the Keras-integration notebook: five
`with`-block simulators (run; compile/evaluate; compile/fit/evaluate;
compile/fit/evaluate; compile/evaluate on the converted network). -/
def kerasTrace : List Ev :=
  [Ev.create 0, Ev.op 0 .run, Ev.close 0,
   Ev.create 1, Ev.op 1 .compileOp, Ev.op 1 .evaluate, Ev.close 1,
   Ev.create 2, Ev.op 2 .compileOp, Ev.op 2 .fit, Ev.op 2 .evaluate, Ev.close 2,
   Ev.create 3, Ev.op 3 .compileOp, Ev.op 3 .fit, Ev.op 3 .evaluate, Ev.close 3,
   Ev.create 4, Ev.op 4 .compileOp, Ev.op 4 .evaluate, Ev.close 4]

/-! ## Serialization call sites

Every file read or write performed by the example code, with the
external-framework call that performs it. -/

/-- The serialization/deserialization calls appearing in the notebooks;
all are external-framework functions. -/
inductive SerCall where
  | saveParams
  | loadParams
  | urlretrieve
  | saveWeights
  | loadWeights
  | datasetsLoadData
deriving DecidableEq

/-- Which codebase implements a call. -/
inductive Owner where
  | externalFramework
  | repository
deriving DecidableEq

/-- The implementer of each serialization call: `sim.save_params` and
`sim.load_params` are nengo-dl Simulator methods, `urlretrieve` is
`urllib.request.urlretrieve`, `save_weights`/`load_weights` are Keras
model methods, and `load_data` is `tf.keras.datasets`. -/
def callOwner : SerCall → Owner
  | .saveParams => .externalFramework
  | .loadParams => .externalFramework
  | .urlretrieve => .externalFramework
  | .saveWeights => .externalFramework
  | .loadWeights => .externalFramework
  | .datasetsLoadData => .externalFramework

/-- Whether a call site writes or reads the file. -/
inductive IOMode where
  | write
  | read
deriving DecidableEq

/-- Every file-touching call site in the example code, in source order:
`sim.save_params("./spa_retrieval_params")`, the `urlretrieve` download
of `spa_retrieval_params.npz`, `sim.load_params("./spa_retrieval_params")`
(spa-retrieval); `tf.keras.datasets.mnist.load_data()` (from-tensorflow);
`tf.keras.datasets.fashion_mnist.load_data()`,
`model.save_weights(model_weights)` and
`self.model.load_weights(model_weights)` (Keras integration). -/
def repoFileOps : List (SerCall × IOMode) :=
  [(.saveParams, .write), (.urlretrieve, .write), (.loadParams, .read),
   (.datasetsLoadData, .read),
   (.datasetsLoadData, .read), (.saveWeights, .write), (.loadWeights, .read)]

/-! ## The NEF least-squares solver

Modelled from the spec: the solver itself lives in the external nengo
library (only its call sites `nengo.Connection(ens0, ens1,
function=np.square)` appear in the repository), and the spec describes
it as "an analytic least-squares method for solving connection weights
to approximate a target function, as opposed to iterative
gradient-based optimization". -/

/-- Modelled from the spec: the source object of a `nengo.Connection` —
an ensemble, or the raw `ensemble.neurons`. -/
inductive ConnSource where
  | ensemble
  | neurons
deriving DecidableEq

/-- Modelled from the spec: how connection weights are determined. -/
inductive WeightMethod where
  | analyticLeastSquares
  | gradientDescent
  | directTransform
deriving DecidableEq

/-- Modelled from the spec: a connection whose source is an ensemble has
its decoders solved by the NEF least-squares method (whether or not a
`function` is given); a connection from `ensemble.neurons` takes the
transform directly, with no NEF solve. -/
def connWeightMethod : ConnSource → WeightMethod
  | .ensemble => .analyticLeastSquares
  | .neurons => .directTransform

/-- Modelled from the spec: the analytic least-squares solve.  Given the
sampled activity matrix `A` (sample points × neurons) and the target
function values `y` at those samples, the decoders are the closed-form
normal-equation solution `(Aᵀ A)⁻¹ Aᵀ y`, written with the adjugate so
that it is defined whenever `det (Aᵀ A) ≠ 0`. -/
def lstsqSolve {m k : Nat} (A : Matrix (Fin m) (Fin k) ℚ) (y : Fin m → ℚ) : Fin k → ℚ :=
  (1 / (Aᵀ * A).det) • ((Aᵀ * A).adjugate *ᵥ (Aᵀ *ᵥ y))

/-- The squared approximation error `‖A w - y‖²` that least squares
minimizes. -/
def sqErr {m k : Nat} (A : Matrix (Fin m) (Fin k) ℚ) (y : Fin m → ℚ) (w : Fin k → ℚ) : ℚ :=
  (A *ᵥ w - y) ⬝ᵥ (A *ᵥ w - y)

/-! ## The external simulator's data layout

The `(batch_size, n_steps, n)` layout of simulation data arrays is
imposed by the external Simulator; the example code only constructs
data conforming to it.  `simShape` states the convention, and
`addTimeAxis` embeds the tutorials' reshape `data[:, None, :]`, which
adapts a `(batch_size, n)` array to the convention by inserting a
singleton time axis. -/

/-- The external convention for a simulation data array: `batch` rows,
each holding `steps` timestep entries (the last axis is fixed by the
vector type `Vec d`). -/
def simShape {d : Nat} (batch steps : Nat) (arr : List (List (Vec d))) : Prop :=
  arr.length = batch ∧ ∀ row ∈ arr, row.length = steps

/-- The reshape `data[:, None, :]` from the tutorials
(`train_data = train_data[:, None, :]` and its siblings): insert a
singleton time axis in the middle, turning shape `(batch_size, n)` into
`(batch_size, 1, n)`. -/
def addTimeAxis {d : Nat} (data : List (Vec d)) : List (List (Vec d)) :=
  data.map (fun row => [row])

/-! ## Concrete witness inputs -/

/-- A concrete one-dimensional vector with value 1. -/
def oneVec1 : Vec 1 := fun _ => 1

/-- A concrete one-dimensional vector with value 2. -/
def twoVec1 : Vec 1 := fun _ => 2

/-- A concrete 1×1 activity matrix (the identity). -/
def idMat1 : Matrix (Fin 1) (Fin 1) ℚ := 1

/-- A concrete target-value vector for the least-squares witness. -/
def twoTarget : Fin 1 → ℚ := fun _ => 2

/-! ## Vocabulary lookup lemmas -/

theorem vFind_append_left {d : Nat} {V : Vocab d} (W : Vocab d) {k : Key} {v : Vec d}
    (h : vFind V k = some v) : vFind (V ++ W) k = some v := by
  induction V with
  | nil => simp [vFind] at h
  | cons p rest ih =>
    obtain ⟨k', v'⟩ := p
    by_cases hk : k = k'
    · simpa [vFind, hk] using h
    · simp only [vFind, if_neg hk] at h ⊢
      exact ih h

theorem vFind_append_right {d : Nat} {V : Vocab d} (W : Vocab d) {k : Key}
    (h : vFind V k = none) : vFind (V ++ W) k = vFind W k := by
  induction V with
  | nil => simp
  | cons p rest ih =>
    obtain ⟨k', v'⟩ := p
    by_cases hk : k = k'
    · simp [vFind, hk] at h
    · simp only [vFind, if_neg hk] at h ⊢
      exact ih h

theorem vFind_eq_none {d : Nat} {V : Vocab d} {k : Key}
    (h : ∀ p ∈ V, k ≠ p.1) : vFind V k = none := by
  induction V with
  | nil => rfl
  | cons p rest ih =>
    obtain ⟨k', v'⟩ := p
    have hk : k ≠ k' := h (k', v') (by simp)
    simp only [vFind, if_neg hk]
    exact ih fun q hq => h q (by simp [hq])

/-! ## Keys appearing in the closed-form vocabularies -/

theorem mem_pairEntries {d : Nat} {lib : SpaLib d} {seed base n p : Nat} {q : Key × Vec d}
    (h : q ∈ pairEntries lib seed base n p) :
    ∃ i, i < p ∧ (q.1 = Key.role n i ∨ q.1 = Key.filler n i) := by
  simp only [pairEntries, List.mem_flatten, List.mem_map] at h
  obtain ⟨l, ⟨i, hi, rfl⟩, hq⟩ := h
  simp only [List.mem_cons, List.not_mem_nil, or_false] at hq
  refine ⟨i, List.mem_range.mp hi, ?_⟩
  rcases hq with rfl | rfl
  · exact Or.inl rfl
  · exact Or.inr rfl

theorem mem_itemVocab_item {d : Nat} {lib : SpaLib d} {seed pairs n : Nat} {q : Key × Vec d}
    (h : q ∈ itemVocab lib seed pairs n) : q.1.item = n := by
  simp only [itemVocab, List.mem_append] at h
  rcases h with h | h
  · obtain ⟨i, _, h | h⟩ := mem_pairEntries h <;> simp [h, Key.item]
  · simp only [List.mem_singleton] at h
    rw [h]
    rfl

theorem mem_vocabUpTo_item {d : Nat} {lib : SpaLib d} {seed pairs m : Nat} {q : Key × Vec d}
    (h : q ∈ vocabUpTo lib seed pairs m) : q.1.item < m := by
  simp only [vocabUpTo, List.mem_flatten, List.mem_map] at h
  obtain ⟨l, ⟨j, hj, rfl⟩, hq⟩ := h
  rw [mem_itemVocab_item hq]
  exact List.mem_range.mp hj

theorem vFind_vocabUpTo_eq_none {d : Nat} {lib : SpaLib d} {seed pairs m : Nat} {k : Key}
    (h : m ≤ k.item) : vFind (vocabUpTo lib seed pairs m) k = none :=
  vFind_eq_none fun q hq heq => by
    have := mem_vocabUpTo_item hq
    rw [← heq] at this
    omega

/-! ## Lookup in the closed-form vocabularies -/

theorem pairEntries_succ {d : Nat} (lib : SpaLib d) (seed base n p : Nat) :
    pairEntries lib seed base n (p + 1) =
      pairEntries lib seed base n p ++
        [(Key.role n p, lib.gen seed (base + 2 * p)),
         (Key.filler n p, lib.gen seed (base + 2 * p + 1))] := by
  simp [pairEntries, List.range_succ]

theorem vFind_pairEntries_role {d : Nat} (lib : SpaLib d) (seed base n : Nat) {p k : Nat}
    (hk : k < p) :
    vFind (pairEntries lib seed base n p) (Key.role n k) =
      some (lib.gen seed (base + 2 * k)) := by
  induction p with
  | zero => omega
  | succ p ih =>
    rw [pairEntries_succ]
    by_cases hkp : k < p
    · exact vFind_append_left _ (ih hkp)
    · have hk' : k = p := by omega
      subst hk'
      have hnone : vFind (pairEntries lib seed base n k) (Key.role n k) = none :=
        vFind_eq_none fun q hq heq => by
          obtain ⟨i, hi, h | h⟩ := mem_pairEntries hq <;> rw [h] at heq
          · injection heq with h1 h2
            omega
          · exact Key.noConfusion heq
      rw [vFind_append_right _ hnone]
      simp [vFind]

theorem vFind_pairEntries_filler {d : Nat} (lib : SpaLib d) (seed base n : Nat) {p k : Nat}
    (hk : k < p) :
    vFind (pairEntries lib seed base n p) (Key.filler n k) =
      some (lib.gen seed (base + 2 * k + 1)) := by
  induction p with
  | zero => omega
  | succ p ih =>
    rw [pairEntries_succ]
    by_cases hkp : k < p
    · exact vFind_append_left _ (ih hkp)
    · have hk' : k = p := by omega
      subst hk'
      have hnone : vFind (pairEntries lib seed base n k) (Key.filler n k) = none :=
        vFind_eq_none fun q hq heq => by
          obtain ⟨i, hi, h | h⟩ := mem_pairEntries hq <;> rw [h] at heq
          · exact Key.noConfusion heq
          · injection heq with h1 h2
            omega
      rw [vFind_append_right _ hnone]
      simp [vFind]

theorem vFind_itemVocab_role {d : Nat} (lib : SpaLib d) (seed pairs n : Nat) {k : Nat}
    (hk : k < pairs) :
    vFind (itemVocab lib seed pairs n) (Key.role n k) =
      some (roleVec lib seed pairs n k) :=
  vFind_append_left _ (vFind_pairEntries_role lib seed ((2 * pairs + 1) * n) n hk)

theorem vFind_itemVocab_filler {d : Nat} (lib : SpaLib d) (seed pairs n : Nat) {k : Nat}
    (hk : k < pairs) :
    vFind (itemVocab lib seed pairs n) (Key.filler n k) =
      some (fillerVec lib seed pairs n k) :=
  vFind_append_left _ (vFind_pairEntries_filler lib seed ((2 * pairs + 1) * n) n hk)

theorem vFind_itemVocab_trace {d : Nat} (lib : SpaLib d) (seed pairs n : Nat) :
    vFind (itemVocab lib seed pairs n) (Key.trace n) =
      some (traceVec lib seed pairs n) := by
  have hnone :
      vFind (pairEntries lib seed ((2 * pairs + 1) * n) n pairs) (Key.trace n) = none :=
    vFind_eq_none fun q hq heq => by
      obtain ⟨i, hi, h | h⟩ := mem_pairEntries hq <;> rw [h] at heq <;> cases heq
  rw [itemVocab, vFind_append_right _ hnone]
  simp [vFind]

theorem vocabUpTo_succ {d : Nat} (lib : SpaLib d) (seed pairs m : Nat) :
    vocabUpTo lib seed pairs (m + 1) =
      vocabUpTo lib seed pairs m ++ itemVocab lib seed pairs m := by
  simp [vocabUpTo, List.range_succ]

theorem vFind_vocabUpTo {d : Nat} (lib : SpaLib d) (seed pairs : Nat) {m : Nat} {k : Key}
    (hn : k.item < m) :
    vFind (vocabUpTo lib seed pairs m) k = vFind (itemVocab lib seed pairs k.item) k := by
  induction m with
  | zero => omega
  | succ m ih =>
    rw [vocabUpTo_succ]
    by_cases hm : k.item < m
    · rcases hfound : vFind (vocabUpTo lib seed pairs m) k with _ | v
      · rw [vFind_append_right _ hfound, ← ih hm, hfound]
        exact vFind_eq_none fun q hq heq => by
          have := mem_itemVocab_item hq
          rw [← heq] at this
          omega
      · rw [vFind_append_left _ hfound, ← ih hm, hfound]
    · have hm' : k.item = m := by omega
      rw [vFind_append_right _ (vFind_vocabUpTo_eq_none (by omega)), hm']

/-! ## Evaluating the parsed expression -/

theorem eval_pairTerm {d : Nat} (lib : SpaLib d) (seed n i : Nat) (V : Vocab d) (pos : Nat)
    (hr : vFind V (Key.role n i) = none) (hf : vFind V (Key.filler n i) = none) :
    evalExpr lib seed (pairTerm n i) V pos =
      (cconv (lib.gen seed pos) (lib.gen seed (pos + 1)),
       V ++ [(Key.role n i, lib.gen seed pos),
             (Key.filler n i, lib.gen seed (pos + 1))],
       pos + 2) := by
  have hf2 : vFind (V ++ [(Key.role n i, lib.gen seed pos)]) (Key.filler n i) = none := by
    rw [vFind_append_right _ hf]
    simp [vFind]
  simp [pairTerm, evalExpr, hr, hf2]

theorem joinAdd_concat (t : Expr) (ts : List Expr) (a : Expr) :
    joinAdd t (ts ++ [a]) = Expr.add (joinAdd t ts) a := by
  simp [joinAdd]

theorem build_eval {d : Nat} (lib : SpaLib d) (seed n : Nat) :
    ∀ p, 1 ≤ p → ∀ (V : Vocab d) (pos : Nat),
      (∀ i, vFind V (Key.role n i) = none) →
      (∀ i, vFind V (Key.filler n i) = none) →
      ∃ E, buildExpr n p = some E ∧
        evalExpr lib seed E V pos =
          (∑ j ∈ Finset.range p,
             cconv (lib.gen seed (pos + 2 * j)) (lib.gen seed (pos + 2 * j + 1)),
           V ++ pairEntries lib seed pos n p,
           pos + 2 * p) := by
  intro p hp
  induction p, hp using Nat.le_induction with
  | base =>
    intro V pos hR hF
    refine ⟨pairTerm n 0, rfl, ?_⟩
    rw [show (pairTerm n 0 : Expr) = joinAdd (pairTerm n 0) [] from rfl, joinAdd,
      List.foldl_nil, eval_pairTerm lib seed n 0 V pos (hR 0) (hF 0)]
    simp [pairEntries, Finset.sum_range_one, List.range_succ]
  | succ p hp ih =>
    intro V pos hR hF
    obtain ⟨E, hbE, hevE⟩ := ih V pos hR hF
    have hne : (List.range p).map (pairTerm n) ≠ [] := by
      have : ((List.range p).map (pairTerm n)).length = p := by simp
      intro hcon
      rw [hcon] at this
      simp at this
      omega
    obtain ⟨t, ts, hcons⟩ := List.exists_cons_of_ne_nil hne
    have hE : E = joinAdd t ts := by
      rw [buildExpr, hcons] at hbE
      exact (Option.some.inj hbE).symm
    have hbuild : buildExpr n (p + 1) = some (Expr.add E (pairTerm n p)) := by
      rw [buildExpr, List.range_succ, List.map_append, hcons, hE]
      simp [joinAdd_concat]
    refine ⟨Expr.add E (pairTerm n p), hbuild, ?_⟩
    have hfreshR : vFind (V ++ pairEntries lib seed pos n p) (Key.role n p) = none := by
      rw [vFind_append_right _ (hR p)]
      exact vFind_eq_none fun q hq heq => by
        obtain ⟨i, hi, h | h⟩ := mem_pairEntries hq <;> rw [h] at heq
        · injection heq with h1 h2
          omega
        · exact Key.noConfusion heq
    have hfreshF : vFind (V ++ pairEntries lib seed pos n p) (Key.filler n p) = none := by
      rw [vFind_append_right _ (hF p)]
      exact vFind_eq_none fun q hq heq => by
        obtain ⟨i, hi, h | h⟩ := mem_pairEntries hq <;> rw [h] at heq
        · exact Key.noConfusion heq
        · injection heq with h1 h2
          omega
    have hstep := eval_pairTerm lib seed n p (V ++ pairEntries lib seed pos n p)
      (pos + 2 * p) hfreshR hfreshF
    show evalExpr lib seed (Expr.add E (pairTerm n p)) V pos = _
    rw [evalExpr]
    simp only [hevE, hstep, Finset.sum_range_succ, pairEntries_succ, List.append_assoc]
    refine Prod.ext rfl (Prod.ext ?_ ?_)
    · simp [pairEntries_succ, List.append_assoc]
    · show pos + 2 * p + 2 = pos + 2 * (p + 1)
      omega

/-! ## The `get_data` loop in closed form -/

theorem itemStep_closed {d : Nat} (lib : SpaLib d) (seed pairs : Nat) (hp : 1 ≤ pairs)
    (m : Nat) :
    itemStep lib seed pairs (closedSt lib seed pairs m) m =
      some (closedSt lib seed pairs (m + 1)) := by
  have hR : ∀ i, vFind (vocabUpTo lib seed pairs m) (Key.role m i) = none :=
    fun i => vFind_vocabUpTo_eq_none (Nat.le_refl m)
  have hF : ∀ i, vFind (vocabUpTo lib seed pairs m) (Key.filler m i) = none :=
    fun i => vFind_vocabUpTo_eq_none (Nat.le_refl m)
  obtain ⟨E, hbE, hevE⟩ :=
    build_eval lib seed m pairs hp (vocabUpTo lib seed pairs m) ((2 * pairs + 1) * m) hR hF
  have hcue : lib.randint seed ((2 * pairs + 1) * m + 2 * pairs) pairs < pairs :=
    lib.randint_lt _ _ _ (by omega)
  have htr : lib.normalize (∑ j ∈ Finset.range pairs,
      cconv (lib.gen seed ((2 * pairs + 1) * m + 2 * j))
        (lib.gen seed ((2 * pairs + 1) * m + 2 * j + 1))) = traceVec lib seed pairs m := rfl
  have hvoc2 :
      vocabUpTo lib seed pairs m ++ pairEntries lib seed ((2 * pairs + 1) * m) m pairs ++
        [(Key.trace m, traceVec lib seed pairs m)] = vocabUpTo lib seed pairs (m + 1) := by
    rw [vocabUpTo_succ, itemVocab, List.append_assoc]
  have hlookR :
      vFind (vocabUpTo lib seed pairs (m + 1))
        (Key.role m (lib.randint seed ((2 * pairs + 1) * m + 2 * pairs) pairs)) =
      some (roleVec lib seed pairs m
        (lib.randint seed ((2 * pairs + 1) * m + 2 * pairs) pairs)) := by
    rw [vFind_vocabUpTo lib seed pairs (Nat.lt_succ_of_le (Nat.le_refl m))]
    exact vFind_itemVocab_role lib seed pairs m hcue
  have hlookF :
      vFind (vocabUpTo lib seed pairs (m + 1))
        (Key.filler m (lib.randint seed ((2 * pairs + 1) * m + 2 * pairs) pairs)) =
      some (fillerVec lib seed pairs m
        (lib.randint seed ((2 * pairs + 1) * m + 2 * pairs) pairs)) := by
    rw [vFind_vocabUpTo lib seed pairs (Nat.lt_succ_of_le (Nat.le_refl m))]
    exact vFind_itemVocab_filler lib seed pairs m hcue
  simp only [itemStep, closedSt, hbE, hevE, htr, hvoc2, vGet, evalExpr, hlookR, hlookF]
  simp [List.range_succ, cuedIdx, Nat.mul_succ, Nat.add_assoc]

theorem runItems_append {d : Nat} (lib : SpaLib d) (seed pairs : Nat) (l1 l2 : List Nat)
    (st : St d) :
    runItems lib seed pairs (l1 ++ l2) st =
      match runItems lib seed pairs l1 st with
      | none => none
      | some st' => runItems lib seed pairs l2 st' := by
  induction l1 generalizing st with
  | nil => rfl
  | cons n ns ih =>
    rcases h : itemStep lib seed pairs st n with _ | st'
    · simp [runItems, h]
    · simp only [List.cons_append, runItems, h]
      exact ih st'

/-- The closed form of `get_data`: with at least one role-filler pair
per item, the loop succeeds and produces the closed-form state. -/
theorem getData_closed {d : Nat} (lib : SpaLib d) (pairs seed : Nat) (hp : 1 ≤ pairs)
    (nItems : Nat) :
    getData lib nItems pairs seed = some (closedSt lib seed pairs nItems) := by
  induction nItems with
  | zero => rfl
  | succ m ih =>
    rw [getData, List.range_succ, runItems_append]
    rw [getData] at ih
    rw [ih]
    show runItems lib seed pairs [m] (closedSt lib seed pairs m) = _
    simp only [runItems, itemStep_closed lib seed pairs hp m]

/-! ## Claim C2 -/

/-- C2: for every item `n` generated by `get_data`, the stored trace
vector `TRACE_n` is built by binding via circular convolution and
superposition via vector addition: row `n` of the returned `traces`
array and the vocabulary entry for `TRACE_n` both hold the
normalization of `∑ j, ROLE_n_j ⊛ FILLER_n_j`, so the trace pointer is
normalized before being added to the vocabulary. -/
theorem claim_C2_trace_binding {d : Nat} (lib : SpaLib d) (nItems pairs seed n : Nat)
    (hp : 1 ≤ pairs) (hn : n < nItems) :
    ∃ st, getData lib nItems pairs seed = some st ∧
      st.traces[n]? = some [traceVec lib seed pairs n] ∧
      vFind st.vocab (Key.trace n) = some (traceVec lib seed pairs n) ∧
      traceVec lib seed pairs n = lib.normalize (∑ j ∈ Finset.range pairs,
        cconv (roleVec lib seed pairs n j) (fillerVec lib seed pairs n j)) := by
  refine ⟨closedSt lib seed pairs nItems, getData_closed lib pairs seed hp nItems,
    ?_, ?_, rfl⟩
  · show (List.map (fun k => [traceVec lib seed pairs k]) (List.range nItems))[n]? = _
    rw [List.getElem?_map, List.getElem?_range hn]
    rfl
  · show vFind (vocabUpTo lib seed pairs nItems) (Key.trace n) = _
    rw [vFind_vocabUpTo lib seed pairs (show (Key.trace n).item < nItems from hn)]
    exact vFind_itemVocab_trace lib seed pairs n

/-- Witness for C2 at a concrete input. -/
theorem claim_C2_witness :
    1 ≤ 1 ∧ 0 < 1 ∧
    (∃ st, getData (libQ 2) 1 1 0 = some st ∧
      st.traces[0]? = some [traceVec (libQ 2) 0 1 0] ∧
      vFind st.vocab (Key.trace 0) = some (traceVec (libQ 2) 0 1 0) ∧
      traceVec (libQ 2) 0 1 0 = (libQ 2).normalize (∑ j ∈ Finset.range 1,
        cconv (roleVec (libQ 2) 0 1 0 j) (fillerVec (libQ 2) 0 1 0 j))) :=
  ⟨Nat.le_refl 1, Nat.zero_lt_one,
    claim_C2_trace_binding (libQ 2) 1 1 0 0 (Nat.le_refl 1) Nat.zero_lt_one⟩

/-! ## Claim C6 -/

/-- C6: for all `n_items ≥ 0`, `pairs_per_item ≥ 1` and `vec_d ≥ 1`,
`get_data` returns `traces`, `cues` and `targets` arrays each of shape
`(n_items, 1, vec_d)` (the vector type already fixes the last axis),
and for every item `n` there is an index `k < pairs_per_item` with the
cue row equal to the vocabulary vector of `ROLE_n_k` and the target row
equal to the vocabulary vector of `FILLER_n_k`: cue and target are
drawn from the same role-filler pair. -/
theorem claim_C6_shapes_and_pairing {d : Nat} (lib : SpaLib d) (nItems pairs seed : Nat)
    (hd : 1 ≤ d) (hp : 1 ≤ pairs) :
    ∃ st, getData lib nItems pairs seed = some st ∧
      st.traces.length = nItems ∧ st.cues.length = nItems ∧ st.targets.length = nItems ∧
      (∀ row ∈ st.traces, row.length = 1) ∧
      (∀ row ∈ st.cues, row.length = 1) ∧
      (∀ row ∈ st.targets, row.length = 1) ∧
      ∀ n, n < nItems → ∃ k, k < pairs ∧
        st.cues[n]? = some [roleVec lib seed pairs n k] ∧
        st.targets[n]? = some [fillerVec lib seed pairs n k] ∧
        vFind st.vocab (Key.role n k) = some (roleVec lib seed pairs n k) ∧
        vFind st.vocab (Key.filler n k) = some (fillerVec lib seed pairs n k) := by
  refine ⟨closedSt lib seed pairs nItems, getData_closed lib pairs seed hp nItems,
    by simp [closedSt], by simp [closedSt], by simp [closedSt], ?_, ?_, ?_, ?_⟩
  · intro row hrow
    obtain ⟨k, _, rfl⟩ := List.mem_map.mp hrow
    rfl
  · intro row hrow
    obtain ⟨k, _, rfl⟩ := List.mem_map.mp hrow
    rfl
  · intro row hrow
    obtain ⟨k, _, rfl⟩ := List.mem_map.mp hrow
    rfl
  · intro n hn
    refine ⟨cuedIdx lib seed pairs n, lib.randint_lt _ _ _ (by omega), ?_, ?_, ?_, ?_⟩
    · show (List.map (fun k => [roleVec lib seed pairs k (cuedIdx lib seed pairs k)])
        (List.range nItems))[n]? = _
      rw [List.getElem?_map, List.getElem?_range hn]
      rfl
    · show (List.map (fun k => [fillerVec lib seed pairs k (cuedIdx lib seed pairs k)])
        (List.range nItems))[n]? = _
      rw [List.getElem?_map, List.getElem?_range hn]
      rfl
    · show vFind (vocabUpTo lib seed pairs nItems) _ = _
      rw [vFind_vocabUpTo lib seed pairs
        (show (Key.role n (cuedIdx lib seed pairs n)).item < nItems from hn)]
      exact vFind_itemVocab_role lib seed pairs n (lib.randint_lt _ _ _ (by omega))
    · show vFind (vocabUpTo lib seed pairs nItems) _ = _
      rw [vFind_vocabUpTo lib seed pairs
        (show (Key.filler n (cuedIdx lib seed pairs n)).item < nItems from hn)]
      exact vFind_itemVocab_filler lib seed pairs n (lib.randint_lt _ _ _ (by omega))

/-- Witness for C6 at a concrete input. -/
theorem claim_C6_witness :
    1 ≤ 1 ∧ 1 ≤ 2 ∧
    (∃ st, getData (libQ 1) 2 2 3 = some st ∧
      st.traces.length = 2 ∧ st.cues.length = 2 ∧ st.targets.length = 2 ∧
      (∀ row ∈ st.traces, row.length = 1) ∧
      (∀ row ∈ st.cues, row.length = 1) ∧
      (∀ row ∈ st.targets, row.length = 1) ∧
      ∀ n, n < 2 → ∃ k, k < 2 ∧
        st.cues[n]? = some [roleVec (libQ 1) 3 2 n k] ∧
        st.targets[n]? = some [fillerVec (libQ 1) 3 2 n k] ∧
        vFind st.vocab (Key.role n k) = some (roleVec (libQ 1) 3 2 n k) ∧
        vFind st.vocab (Key.filler n k) = some (fillerVec (libQ 1) 3 2 n k)) :=
  ⟨Nat.le_refl 1, by omega,
    claim_C6_shapes_and_pairing (libQ 1) 2 2 3 (Nat.le_refl 1) (by omega)⟩

/-! ## Conformance to the external data layout

Supporting fact for the data-model discussion: the tutorials' reshape
`data[:, None, :]` only adapts 2-D data to the externally imposed
`(batch_size, n_steps, n)` convention — it preserves the batch count
and the row contents and inserts a time axis of length 1, defining no
layout of its own.  (The `get_data` arrays conform to the same
convention by the C6 theorem.) -/

theorem addTimeAxis_conforms {d : Nat} (data : List (Vec d)) :
    simShape data.length 1 (addTimeAxis data) ∧
    ∀ i, i < data.length → (addTimeAxis data)[i]? = Option.map (fun r => [r]) data[i]? := by
  refine ⟨⟨List.length_map data _, ?_⟩, ?_⟩
  · intro row hrow
    obtain ⟨r, _, rfl⟩ := List.mem_map.mp hrow
    rfl
  · intro i _
    exact List.getElem?_map _ data i

/-! ## Claim C9 -/

/-- C9: `get_data` is deterministic in its arguments.  In this
embedding every random draw is a pure function of `vocab_seed` and the
draw position within the single seeded stream, so two calls with equal
`n_items`, `pairs_per_item`, `vec_d` and `vocab_seed` (for any model
`lib` of the external primitives) return identical arrays. -/
theorem claim_C9_deterministic {d : Nat} (lib : SpaLib d) (n1 p1 s1 n2 p2 s2 : Nat)
    (hn : n1 = n2) (hp : p1 = p2) (hs : s1 = s2) :
    getData lib n1 p1 s1 = getData lib n2 p2 s2 := by
  subst hn
  subst hp
  subst hs
  rfl

/-- Witness for C9 at a concrete input. -/
theorem claim_C9_witness :
    2 = 2 ∧ 1 = 1 ∧ 5 = 5 ∧ getData (libQ 1) 2 1 5 = getData (libQ 1) 2 1 5 :=
  ⟨rfl, rfl, rfl, claim_C9_deterministic (libQ 1) 2 1 5 2 1 5 rfl rfl rfl⟩

/-! ## Maximum and argmax lemmas for `accuracy` -/

theorem le_foldl_max (a : ℚ) (l : List ℚ) : a ≤ l.foldl max a := by
  induction l generalizing a with
  | nil => exact le_refl a
  | cons b t ih => exact le_trans (le_max_left a b) (ih (max a b))

theorem mem_le_foldl_max {x : ℚ} {l : List ℚ} (hx : x ∈ l) (a : ℚ) :
    x ≤ l.foldl max a := by
  induction l generalizing a with
  | nil => cases hx
  | cons b t ih =>
    rcases List.mem_cons.mp hx with rfl | hx'
    · exact le_trans (le_max_right a x) (le_foldl_max (max a x) t)
    · exact ih hx' (max a b)

theorem foldl_max_mem (a : ℚ) (l : List ℚ) : l.foldl max a = a ∨ l.foldl max a ∈ l := by
  induction l generalizing a with
  | nil => exact Or.inl rfl
  | cons b t ih =>
    rw [List.foldl_cons]
    rcases ih (max a b) with h | h
    · rcases max_choice a b with hm | hm
      · exact Or.inl (by rw [h, hm])
      · exact Or.inr (by rw [h, hm]; exact List.mem_cons_self b t)
    · exact Or.inr (List.mem_cons_of_mem b h)

theorem listMax_mem {l : List ℚ} (h : l ≠ []) : listMax l ∈ l := by
  match l, h with
  | x :: xs, _ =>
    rcases foldl_max_mem x xs with h1 | h1
    · rw [listMax, h1]
      exact List.mem_cons_self x xs
    · exact List.mem_cons_of_mem x h1

theorem le_listMax {x : ℚ} {l : List ℚ} (hx : x ∈ l) : x ≤ listMax l := by
  cases l with
  | nil => cases hx
  | cons x' xs =>
    rcases List.mem_cons.mp hx with rfl | h
    · exact le_foldl_max x xs
    · exact mem_le_foldl_max h x'

theorem argmaxIdx_lt_length {l : List ℚ} (h : l ≠ []) : argmaxIdx l < l.length :=
  List.indexOf_lt_length.mpr (listMax_mem h)

theorem get_argmaxIdx {l : List ℚ} (hlt : argmaxIdx l < l.length) :
    l.get ⟨argmaxIdx l, hlt⟩ = listMax l :=
  List.indexOf_get hlt

/-- The vector `accuracy` retrieves attains the greatest dot-product
similarity among the vocabulary vectors. -/
theorem dotP_le_bestMatch {d : Nat} {vv : List (Vec d)} (hvv : vv ≠ []) (o : Vec d)
    {v : Vec d} (hv : v ∈ vv) : dotP v o ≤ dotP (bestMatch vv o) o := by
  have hne : vv.map (fun u => dotP u o) ≠ [] := by
    intro hcon
    exact hvv (List.map_eq_nil_iff.mp hcon)
  have hlt := argmaxIdx_lt_length hne
  have hlt' : argmaxIdx (vv.map (fun u => dotP u o)) < vv.length := by
    rw [List.length_map] at hlt
    exact hlt
  have hbm : bestMatch vv o = vv.get ⟨argmaxIdx (vv.map (fun u => dotP u o)), hlt'⟩ := by
    rw [bestMatch, List.getD_eq_getElem _ _ hlt']
    rfl
  have hval : dotP (vv.get ⟨argmaxIdx (vv.map (fun u => dotP u o)), hlt'⟩) o =
      (vv.map (fun u => dotP u o)).get ⟨argmaxIdx (vv.map (fun u => dotP u o)), hlt⟩ := by
    rw [List.get_map]
  rw [hbm, hval, get_argmaxIdx hlt]
  exact le_listMax (List.mem_map_of_mem (fun u => dotP u o) hv)

/-! ## The closed form of `accuracy` -/

theorem mapOpt_length {α β : Type} (f : α → Option β) :
    ∀ (l : List α) (l' : List β), mapOpt f l = some l' → l'.length = l.length := by
  intro l
  induction l with
  | nil =>
    intro l' h
    simp only [mapOpt, Option.some.injEq] at h
    rw [← h]
    rfl
  | cons a t ih =>
    intro l' h
    rw [mapOpt] at h
    rcases hfa : f a with _ | b
    · rw [hfa] at h
      cases h
    · rw [hfa] at h
      rcases hmt : mapOpt f t with _ | bs
      · rw [hmt] at h
        cases h
      · rw [hmt] at h
        have := (Option.some.inj h).symm
        rw [this, List.length_cons, List.length_cons, ih bs hmt]

theorem accuracyFn_eq {d : Nat} (output : List (List (Vec d))) (vv : List (Vec d))
    (targets : List (List (Vec d))) (t : Int) (outs tgt0 : List (Vec d))
    (ho : mapOpt (fun row => pyGet row t) output = some outs)
    (hv : vv ≠ [])
    (ht : mapOpt (fun r => r[0]?) targets = some tgt0)
    (hlen : tgt0.length = outs.length) :
    accuracyFn output vv targets t =
      npMean ((outs.zip tgt0).map
        (fun p => if bestMatch vv p.1 = p.2 then (1 : ℚ) else 0)) := by
  have hEmp : vv.isEmpty = false := by
    rcases vv with _ | ⟨x, xs⟩
    · exact absurd rfl hv
    · rfl
  have hchosen :
      (outs.map (fun o => argmaxIdx (vv.map (fun u => dotP u o)))).map
          (fun i => vv.getD i (zeroVec d)) =
        outs.map (bestMatch vv) := by
    rw [List.map_map]
    rfl
  have hblen : (outs.map (bestMatch vv)).length = tgt0.length := by
    rw [List.length_map, hlen]
  simp only [accuracyFn, ho, ht, hEmp, Bool.false_eq_true, if_false, hchosen,
    broadcastRows, hblen, if_pos]
  rw [List.zip_map_left, List.map_map]
  rfl

theorem sum_le_length (l : List ℚ) (h : ∀ x ∈ l, x ≤ 1) : l.sum ≤ (l.length : ℚ) := by
  induction l with
  | nil => simp
  | cons x xs ih =>
    simp only [List.sum_cons, List.length_cons]
    push_cast
    have h1 : x ≤ 1 := h x (List.mem_cons_self x xs)
    have h2 : xs.sum ≤ (xs.length : ℚ) := ih fun y hy => h y (List.mem_cons_of_mem x hy)
    linarith

theorem npMean_indicator_bounds (l : List ℚ) (h01 : ∀ x ∈ l, x = 0 ∨ x = 1)
    (hne : l ≠ []) :
    npMean l = some (l.sum / (l.length : ℚ)) ∧
      0 ≤ l.sum / (l.length : ℚ) ∧ l.sum / (l.length : ℚ) ≤ 1 := by
  have hlenpos : (0 : ℚ) < (l.length : ℚ) := by
    have : 0 < l.length := List.length_pos.mpr hne
    exact_mod_cast this
  have hsum0 : 0 ≤ l.sum := List.sum_nonneg fun x hx => by
    rcases h01 x hx with rfl | rfl
    · exact le_refl 0
    · exact zero_le_one
  have hsumlen : l.sum ≤ (l.length : ℚ) := sum_le_length l fun x hx => by
    rcases h01 x hx with rfl | rfl
    · exact zero_le_one
    · exact le_refl 1
  refine ⟨?_, div_nonneg hsum0 (le_of_lt hlenpos), (div_le_one hlenpos).mpr hsumlen⟩
  match l, hne with
  | x :: xs, _ => rfl

/-- The common success case of `accuracy`: nonempty vocabulary, a valid
time step for every row, targets with a first entry and one row per
batch item, nonempty batch. -/
theorem accuracy_success {d : Nat} (output : List (List (Vec d))) (vv : List (Vec d))
    (targets : List (List (Vec d))) (t : Int) (outs tgt0 : List (Vec d))
    (ho : mapOpt (fun row => pyGet row t) output = some outs)
    (hv : vv ≠ []) (hone : outs ≠ [])
    (ht : mapOpt (fun r => r[0]?) targets = some tgt0)
    (hlen : tgt0.length = outs.length) :
    ∃ r, accuracyFn output vv targets t = some r ∧
      r = ((outs.zip tgt0).map
        (fun p => if bestMatch vv p.1 = p.2 then (1 : ℚ) else 0)).sum /
        (outs.length : ℚ) ∧
      0 ≤ r ∧ r ≤ 1 := by
  have hziplen : (outs.zip tgt0).length = outs.length := by
    rw [List.length_zip, hlen, min_self]
  have hflagslen :
      ((outs.zip tgt0).map
        (fun p => if bestMatch vv p.1 = p.2 then (1 : ℚ) else 0)).length =
      outs.length := by
    rw [List.length_map, hziplen]
  have hfne :
      (outs.zip tgt0).map (fun p => if bestMatch vv p.1 = p.2 then (1 : ℚ) else 0) ≠ [] := by
    intro hcon
    have := hflagslen
    rw [hcon] at this
    simp only [List.length_nil] at this
    exact hone (List.length_eq_zero.mp this.symm)
  have h01 : ∀ x ∈ (outs.zip tgt0).map
      (fun p => if bestMatch vv p.1 = p.2 then (1 : ℚ) else 0), x = 0 ∨ x = 1 := by
    intro x hx
    obtain ⟨p, _, rfl⟩ := List.mem_map.mp hx
    by_cases hc : bestMatch vv p.1 = p.2
    · exact Or.inr (if_pos hc)
    · exact Or.inl (if_neg hc)
  obtain ⟨hmean, h0, h1⟩ := npMean_indicator_bounds _ h01 hfne
  rw [hflagslen] at hmean h0 h1
  exact ⟨_, by rw [accuracyFn_eq output vv targets t outs tgt0 ho hv ht hlen]; exact hmean,
    rfl, h0, h1⟩

/-! ## Claim C3 -/

/-- C3 counterexample: for the empty batch (an `output` array of shape
`(0, steps, d)`) with a nonempty vocabulary, `accuracy` takes `np.mean`
of an empty array, which is numpy's `nan` (embedded as `none`) — not an
arithmetic mean lying in `[0, 1]` — so the claim fails as universally
stated. -/
theorem claim_C3_counterexample :
    accuracyFn (d := 1) [] [oneVec1] [] (-1) = none := rfl

/-- C3 (amended): for every output batch with at least one item and a
valid `t_step` for every row, every nonempty vocabulary, and every
targets array with a nonempty row per batch item, `accuracy` returns
the arithmetic mean over batch items of the indicator that the
vocabulary vector with the greatest dot-product similarity to the
item's output (the first such vector, as `np.argmax` resolves ties) is
componentwise equal to `targets[i, 0]`; the returned value lies in
`[0, 1]`. -/
theorem claim_C3_accuracy_mean {d : Nat} (output : List (List (Vec d))) (vv : List (Vec d))
    (targets : List (List (Vec d))) (t : Int) (outs tgt0 : List (Vec d))
    (ho : mapOpt (fun row => pyGet row t) output = some outs)
    (hv : vv ≠ []) (hone : outs ≠ [])
    (ht : mapOpt (fun r => r[0]?) targets = some tgt0)
    (hlen : tgt0.length = outs.length) :
    ∃ r, accuracyFn output vv targets t = some r ∧
      r = ((outs.zip tgt0).map
        (fun p => if bestMatch vv p.1 = p.2 then (1 : ℚ) else 0)).sum /
        (outs.length : ℚ) ∧
      0 ≤ r ∧ r ≤ 1 ∧
      ∀ o ∈ outs, ∀ v ∈ vv, dotP v o ≤ dotP (bestMatch vv o) o := by
  obtain ⟨r, hr, hval, h0, h1⟩ :=
    accuracy_success output vv targets t outs tgt0 ho hv hone ht hlen
  exact ⟨r, hr, hval, h0, h1, fun o _ v hv' => dotP_le_bestMatch hv o hv'⟩

/-- Witness for the amended C3 at a concrete input. -/
theorem claim_C3_witness :
    (mapOpt (fun row => pyGet row (-1)) [[twoVec1]] = some [twoVec1]) ∧
    ([oneVec1, twoVec1] ≠ ([] : List (Vec 1))) ∧
    ([twoVec1] ≠ ([] : List (Vec 1))) ∧
    (mapOpt (fun r => r[0]?) [[twoVec1]] = some [twoVec1]) ∧
    (([twoVec1] : List (Vec 1)).length = ([twoVec1] : List (Vec 1)).length) ∧
    (∃ r, accuracyFn [[twoVec1]] [oneVec1, twoVec1] [[twoVec1]] (-1) = some r ∧
      r = (([twoVec1].zip [twoVec1]).map
        (fun p => if bestMatch [oneVec1, twoVec1] p.1 = p.2 then (1 : ℚ) else 0)).sum /
        ((([twoVec1] : List (Vec 1)).length : ℚ)) ∧
      0 ≤ r ∧ r ≤ 1 ∧
      ∀ o ∈ [twoVec1], ∀ v ∈ [oneVec1, twoVec1],
        dotP v o ≤ dotP (bestMatch [oneVec1, twoVec1] o) o) :=
  ⟨rfl, List.cons_ne_nil _ _, List.cons_ne_nil _ _, rfl, rfl,
    claim_C3_accuracy_mean [[twoVec1]] [oneVec1, twoVec1] [[twoVec1]] (-1)
      [twoVec1] [twoVec1] rfl (List.cons_ne_nil _ _) (List.cons_ne_nil _ _) rfl rfl⟩

/-! ## Claim C4 -/

/-- C4 counterexample: `accuracy` called with an empty vocabulary — an
input accepted by its signature — fails at the `np.argmax` of the empty
vocabulary axis (embedded as `none`), contradicting the claim that
`accuracy` cannot be the site of an empty-vocabulary argmax failure. -/
theorem claim_C4_counterexample :
    accuracyFn (d := 1) [[oneVec1]] [] [[oneVec1]] (-1) = none := rfl

/-- C4 (amended): the repository-defined functions contain no `raise`
of their own but can still be the site of a failure surfacing from the
numpy and nengo calls they make (`accuracy` on an empty vocabulary or
an out-of-range `t_step`; `get_data` on an empty pair join).  Away from
those inputs no failure occurs: with a nonempty vocabulary, a valid
`t_step` for every row, a nonempty batch and well-shaped targets,
`accuracy` returns a value, and with at least one pair per item
`get_data` returns its arrays. -/
theorem claim_C4_no_failure {d e : Nat} (output : List (List (Vec d))) (vv : List (Vec d))
    (targets : List (List (Vec d))) (t : Int) (outs tgt0 : List (Vec d))
    (lib : SpaLib e) (nItems pairs seed : Nat)
    (ho : mapOpt (fun row => pyGet row t) output = some outs)
    (hv : vv ≠ []) (hone : outs ≠ [])
    (ht : mapOpt (fun r => r[0]?) targets = some tgt0)
    (hlen : tgt0.length = outs.length) (hp : 1 ≤ pairs) :
    (∃ r, accuracyFn output vv targets t = some r) ∧
    (∃ st, getData lib nItems pairs seed = some st) := by
  obtain ⟨r, hr, _⟩ := accuracy_success output vv targets t outs tgt0 ho hv hone ht hlen
  exact ⟨⟨r, hr⟩, ⟨_, getData_closed lib pairs seed hp nItems⟩⟩

/-- Witness for the amended C4 at a concrete input. -/
theorem claim_C4_witness :
    (mapOpt (fun row => pyGet row (-1)) [[oneVec1]] = some [oneVec1]) ∧
    ([oneVec1] ≠ ([] : List (Vec 1))) ∧
    (mapOpt (fun r => r[0]?) [[oneVec1]] = some [oneVec1]) ∧
    (([oneVec1] : List (Vec 1)).length = ([oneVec1] : List (Vec 1)).length) ∧
    (1 ≤ 1) ∧
    ((∃ r, accuracyFn [[oneVec1]] [oneVec1] [[oneVec1]] (-1) = some r) ∧
      (∃ st, getData (libQ 1) 1 1 0 = some st)) :=
  ⟨rfl, List.cons_ne_nil _ _, rfl, rfl, Nat.le_refl 1,
    claim_C4_no_failure [[oneVec1]] [oneVec1] [[oneVec1]] (-1) [oneVec1] [oneVec1]
      (libQ 1) 1 1 0 rfl (List.cons_ne_nil _ _) (List.cons_ne_nil _ _) rfl rfl
      (Nat.le_refl 1)⟩

/-! ## Claim C7 -/

/-- C7: in every example notebook, the calls `step`, `run_steps`, `run`,
`predict`, `compile`, `fit` and `evaluate` on a Simulator occur only
between the simulator's creation and its close — inside the `with`
block, or before the explicit `close()` for the simulator created
without one — in both branches of `do_training`: all transcribed traces
are well-scoped. -/
theorem claim_C7_simulator_scoping :
    wellScoped (spaRetrievalTrace true) = true ∧
    wellScoped (spaRetrievalTrace false) = true ∧
    wellScoped fromTfTrace = true ∧
    wellScoped kerasTrace = true :=
  ⟨rfl, rfl, rfl, rfl⟩

/-! ## Claim C8 -/

/-- C8: every file the example code writes or reads is serialized and
deserialized exclusively through external-framework calls
(`save_params`, `load_params`, `urlretrieve`, `save_weights`,
`load_weights`, the Keras dataset loaders): each transcribed file
operation is owned by the external framework, never by repository
code. -/
theorem claim_C8_serialization_external :
    ∀ p ∈ repoFileOps, callOwner p.1 = Owner.externalFramework := by
  decide

/-- Witness for C8 at a concrete call site. -/
theorem claim_C8_witness :
    (SerCall.saveParams, IOMode.write) ∈ repoFileOps ∧
      callOwner SerCall.saveParams = Owner.externalFramework :=
  ⟨by decide, claim_C8_serialization_external (SerCall.saveParams, IOMode.write) (by decide)⟩

/-! ## Claim C10 -/

theorem lstsqSolve_normal {m k : Nat} (A : Matrix (Fin m) (Fin k) ℚ) (y : Fin m → ℚ)
    (hdet : (Aᵀ * A).det ≠ 0) :
    (Aᵀ * A) *ᵥ lstsqSolve A y = Aᵀ *ᵥ y := by
  rw [lstsqSolve, Matrix.mulVec_smul, Matrix.mulVec_mulVec, Matrix.mul_adjugate,
    Matrix.smul_mulVec_assoc, Matrix.one_mulVec, smul_smul, one_div_mul_cancel hdet,
    one_smul]

theorem lstsqSolve_optimal {m k : Nat} (A : Matrix (Fin m) (Fin k) ℚ) (y : Fin m → ℚ)
    (hdet : (Aᵀ * A).det ≠ 0) (w : Fin k → ℚ) :
    sqErr A y (lstsqSolve A y) ≤ sqErr A y w := by
  have hnorm : (Aᵀ * A) *ᵥ lstsqSolve A y = Aᵀ *ᵥ y := lstsqSolve_normal A y hdet
  have hw : w = lstsqSolve A y + (w - lstsqSolve A y) := by abel
  have hAw : A *ᵥ w - y =
      (A *ᵥ lstsqSolve A y - y) + A *ᵥ (w - lstsqSolve A y) := by
    conv_lhs => rw [hw]
    rw [Matrix.mulVec_add]
    abel
  have hAr : Aᵀ *ᵥ (A *ᵥ lstsqSolve A y - y) = 0 := by
    rw [Matrix.mulVec_sub, Matrix.mulVec_mulVec, hnorm, sub_self]
  have hortho : (A *ᵥ lstsqSolve A y - y) ⬝ᵥ (A *ᵥ (w - lstsqSolve A y)) = 0 := by
    rw [Matrix.dotProduct_mulVec, ← Matrix.transpose_transpose A,
      Matrix.vecMul_transpose, Matrix.transpose_transpose, hAr,
      Matrix.zero_dotProduct]
  have hexpand : sqErr A y w = sqErr A y (lstsqSolve A y) +
      (A *ᵥ (w - lstsqSolve A y)) ⬝ᵥ (A *ᵥ (w - lstsqSolve A y)) := by
    rw [sqErr, sqErr, hAw, Matrix.add_dotProduct, Matrix.dotProduct_add,
      Matrix.dotProduct_add, hortho]
    have hc : (A *ᵥ (w - lstsqSolve A y)) ⬝ᵥ (A *ᵥ lstsqSolve A y - y) = 0 := by
      rw [Matrix.dotProduct_comm]
      exact hortho
    rw [hc]
    ring
  have hnn : 0 ≤ (A *ᵥ (w - lstsqSolve A y)) ⬝ᵥ (A *ᵥ (w - lstsqSolve A y)) :=
    Finset.sum_nonneg fun i _ => mul_self_nonneg _
  linarith

/-- C10: when a `nengo.Connection` is created from an ensemble (not
`ensemble.neurons`) with a `function` argument, the connection weights
are solved analytically by linear least squares to approximate the
target function — the dispatch selects the analytic method rather than
gradient descent, and the closed-form solution satisfies the
least-squares normal equations and minimizes the squared approximation
error over all weight vectors. -/
theorem claim_C10_nef_least_squares {m k : Nat} (A : Matrix (Fin m) (Fin k) ℚ)
    (y : Fin m → ℚ) (hdet : (Aᵀ * A).det ≠ 0) :
    connWeightMethod ConnSource.ensemble = WeightMethod.analyticLeastSquares ∧
    connWeightMethod ConnSource.ensemble ≠ WeightMethod.gradientDescent ∧
    (Aᵀ * A) *ᵥ lstsqSolve A y = Aᵀ *ᵥ y ∧
    ∀ w, sqErr A y (lstsqSolve A y) ≤ sqErr A y w :=
  ⟨rfl, by decide, lstsqSolve_normal A y hdet, lstsqSolve_optimal A y hdet⟩

/-- Witness for C10 at a concrete input: the identity activity matrix. -/
theorem claim_C10_witness :
    ((idMat1ᵀ * idMat1).det ≠ 0) ∧
    (connWeightMethod ConnSource.ensemble = WeightMethod.analyticLeastSquares ∧
     connWeightMethod ConnSource.ensemble ≠ WeightMethod.gradientDescent ∧
     (idMat1ᵀ * idMat1) *ᵥ lstsqSolve idMat1 twoTarget = idMat1ᵀ *ᵥ twoTarget ∧
     ∀ w, sqErr idMat1 twoTarget (lstsqSolve idMat1 twoTarget) ≤ sqErr idMat1 twoTarget w) :=
  ⟨by simp [idMat1], claim_C10_nef_least_squares idMat1 twoTarget (by simp [idMat1])⟩

end NengoDL
